/-
  Verification of the embedded version-control core of the Helio/WStation
  repository, shallowly embedded from Source/Core/VCS/VersionControl.cpp.
  Components that VersionControl.cpp calls into but whose sources are not
  available (Revision, Head, StashesRepository, Pack) are modelled from the
  specification; each such definition carries a doc comment saying so.
-/
import Mathlib

namespace WStation

/-- Modelled from the spec: RevisionItem kinds (spec 4.2) — Added carries a
full snapshot, Removed is a tombstone, Changed carries a delta. -/
inductive DeltaKind where
  | added
  | removed
  | changed
deriving DecidableEq, Repr

/-- Modelled from the spec: RevisionItem (spec 3) — one change record for one
tracked entity, keyed by its target id. The payload is kept abstract as a
string of bytes. -/
structure RevisionItem where
  targetId : String
  kind : DeltaKind
  payload : String
deriving DecidableEq, Repr

/-- Modelled from the spec: Revision (spec 3) — a commit node with an id, a
message, owned items and owned child revisions. No parent back-pointer is
stored; parentage is the nesting of the tree. -/
inductive Revision where
  | mk (uuid : String) (message : String)
      (items : List RevisionItem) (children : List Revision)

def Revision.uuid : Revision → String
  | .mk u _ _ _ => u

def Revision.message : Revision → String
  | .mk _ m _ _ => m

def Revision.items : Revision → List RevisionItem
  | .mk _ _ its _ => its

def Revision.children : Revision → List Revision
  | .mk _ _ _ cs => cs

/-- Modelled from the spec: the distinguished empty sentinel Revision that
represents not-found results (spec 4.3); it always reports isEmpty = true.
In the source the sentinel is a freshly constructed Revision with no message,
no items and no children. -/
def emptyRevision : Revision := .mk "" "" [] []

/-- Modelled from the spec: Revision::isEmpty (spec 4.3) — true exactly for a
revision carrying no message, no items and no children, as produced by the
sentinel constructor. -/
def Revision.isEmpty (r : Revision) : Bool :=
  r.message == "" && r.items.isEmpty && r.children.isEmpty

/-- A deterministic 32-bit string hash. Modelled from the spec: stands in for
the CompileTimeHash string-hash primitive of the source (Common.h, not under
src/); only determinism matters for the stated properties. -/
def stringHash (s : String) : Nat :=
  s.foldl (fun h c => (h * 31 + c.toNat) % 4294967296) 5381

def kindTag : DeltaKind → String
  | .added => "a"
  | .removed => "r"
  | .changed => "c"

/-- Modelled from the spec: the serialized form of one item entering the
revision content hash (spec 4.3). -/
def itemTag (it : RevisionItem) : String :=
  it.targetId ++ ":" ++ kindTag it.kind ++ ":" ++ it.payload ++ ";"

/-- Modelled from the spec: hash of the own items of a revision (spec 4.3). -/
def itemsHash (its : List RevisionItem) : Nat :=
  stringHash (String.join (its.map itemTag))

def combineHash (a b : Nat) : Nat := (a * 31 + b) % 4294967296

/-- Hash of a list of 32-bit hashes, taken in the given order. -/
def natListHash (l : List Nat) : Nat :=
  stringHash (String.join (l.map toString))

abbrev natLE : Nat → Nat → Prop := (· ≤ ·)

mutual

/-- Modelled from the spec: Revision::calculateHash (spec 4.3) — combines the
own items hash with the sorted, order-independent list of all descendant
hashes. -/
def Revision.calculateHash : Revision → Nat
  | .mk _ _ its cs =>
      combineHash (itemsHash its) (natListHash (List.insertionSort natLE (descendantHashes cs)))

/-- The hashes of every node of every subtree in the list: each listed
revision contributes its own hash and, recursively, the hashes of all of its
descendants. -/
def descendantHashes : List Revision → List Nat
  | [] => []
  | .mk u m its cs :: rest =>
      Revision.calculateHash (.mk u m its cs) ::
        (descendantHashes cs ++ descendantHashes rest)

end

mutual

/-- Embeds recursiveGetHashes (VersionControl.cpp lines 51-62): collects the
per-revision hashes of all children subtrees, then appends the own hash. -/
def recursiveGetHashes : Revision → List Nat
  | .mk u m its cs =>
      childrenHashes cs ++ [Revision.calculateHash (.mk u m its cs)]

def childrenHashes : List Revision → List Nat
  | [] => []
  | c :: rest => recursiveGetHashes c ++ childrenHashes rest

end

abbrev strLE : String → String → Prop := (· ≤ ·)

/-- Embeds VersionControl::calculateHash (VersionControl.cpp lines 64-69):
collect all per-revision hashes of the tree, render them as strings, sort
(the source sorts so as not to depend on child order), join and hash. -/
def vcsTreeHash (root : Revision) : String :=
  toString (stringHash (String.join
    (List.insertionSort strLE ((recursiveGetHashes root).map toString))))

mutual

/-- Embeds VersionControl::getRevisionById (VersionControl.cpp lines
382-402): depth-first search by uuid; returns the revision itself on a
match, otherwise searches the children and returns the empty sentinel when
nothing is found. It never returns a null reference: in the source the
not-found result is a freshly allocated empty Revision. -/
def getRevisionById : Revision → String → Revision
  | .mk u m its cs, id =>
      if u == id then .mk u m its cs
      else searchChildrenById cs id

/-- The child-loop of getRevisionById: a found-but-empty result from a child
search is discarded, as in the source (the isEmpty guard on line 394). -/
def searchChildrenById : List Revision → String → Revision
  | [], _ => emptyRevision
  | c :: rest, id =>
      let s := getRevisionById c id
      if s.isEmpty then searchChildrenById rest id else s

end

mutual

/-- All uuids of the revisions reachable from the given root, in depth-first
order. -/
def allUuids : Revision → List String
  | .mk u _ _ cs => u :: allUuidsList cs

def allUuidsList : List Revision → List String
  | [] => []
  | c :: rest => allUuids c ++ allUuidsList rest

end

mutual

/-- The root-to-target path of revisions, located by the target uuid; none
when the uuid is not reachable from the root. -/
def pathToRev : Revision → String → Option (List Revision)
  | .mk u m its cs, id =>
      if u == id then some [.mk u m its cs]
      else
        match pathInChildren cs id with
        | some p => some (.mk u m its cs :: p)
        | none => none

def pathInChildren : List Revision → String → Option (List Revision)
  | [], _ => none
  | c :: rest, id =>
      match pathToRev c id with
      | some p => some p
      | none => pathInChildren rest id

end

mutual

/-- Functional counterpart of mutating a node found by uuid inside the owning
tree: returns the tree in which the first depth-first revision carrying the
uuid has gained the given child (Revision::addChild, spec 4.3, applied through
the shared pointer returned by getRevisionById). -/
def addChildAt : Revision → String → Revision → Revision
  | .mk u m its cs, id, child =>
      if u == id then .mk u m its (cs ++ [child])
      else .mk u m its (addChildAtList cs id child)

def addChildAtList : List Revision → String → Revision → List Revision
  | [], _, _ => []
  | c :: rest, id, child =>
      if (getRevisionById c id).isEmpty then
        c :: addChildAtList rest id child
      else
        addChildAt c id child :: rest

end

/-! ### Live document state, index, and the Head cursor -/

/-- The live document visible to the version control: tracked entity id
mapped to its current snapshot. TrackedItem itself is external (spec 3). -/
abbrev LiveState := List (String × String)

/-- The materialized working index of the Head: entity id mapped to the
latest recorded item along the root-to-head path (spec 3). -/
abbrev Index := List (String × RevisionItem)

/-- Replace the binding for a key, or append it when absent. -/
def setEntry {α : Type} (l : List (String × α)) (k : String) (v : α) :
    List (String × α) :=
  match l with
  | [] => [(k, v)]
  | (k0, v0) :: rest =>
      if k0 == k then (k, v) :: rest else (k0, v0) :: setEntry rest k v

def eraseEntry {α : Type} (l : List (String × α)) (k : String) :
    List (String × α) :=
  l.filter (fun p => !(p.1 == k))

/-- Modelled from the spec: applying one recorded item onto the live document
(spec 4.2, 4.4) — Added and Changed install the recorded payload, Removed
deletes the entity. -/
def applyItemLive (live : LiveState) (it : RevisionItem) : LiveState :=
  match it.kind with
  | .removed => eraseEntry live it.targetId
  | _ => setEntry live it.targetId it.payload

/-- Merge the items of one revision into an index, last-writer-wins per
target id (spec 3, Head invariant). -/
def mergeItemsIntoIndex (idx : Index) (its : List RevisionItem) : Index :=
  its.foldl (fun a it => setEntry a it.targetId it) idx

/-- The index determined by a root-to-target path: the merge of every
revision items along the path, in root-to-target order (spec 3, 4.4). -/
def indexAlong (path : List Revision) : Index :=
  path.foldl (fun a r => mergeItemsIntoIndex a r.items) []

/-- Modelled from the spec: Head (spec 3) — a cursor onto a revision plus a
materialized index and its validity flag. The diff cache and its staleness
flag are not modelled: the diff is computed as a pure function below. -/
structure Head where
  headingRevision : Revision
  index : Index
  indexValid : Bool

/-- Modelled from the spec: Head::pointTo (spec 4.4) — O(1) rebind of the
heading revision pointer, explicitly marking the index invalid. -/
def Head.pointTo (h : Head) (target : Revision) : Head :=
  { h with headingRevision := target, indexValid := false }

/-- Modelled from the spec: Head::moveTo (spec 4.4) — moves the cursor and
rebuilds the index as the last-writer-wins merge of every revision items
along the root-to-target path, marking the index valid. For a target outside
the tree (a detached stash revision) only the target items are merged. -/
def Head.moveTo (root : Revision) (_h : Head) (target : Revision) : Head :=
  { headingRevision := target,
    index := indexAlong ((pathToRev root target.uuid).getD [target]),
    indexValid := true }

/-- Modelled from the spec: the synthetic diff items of Head::getDiff
(spec 4.4) — every live entity missing from the index yields Added, every
live entity differing from its indexed payload yields Changed, and every
indexed entity missing from the live document yields Removed. -/
def diffItems (idx : Index) (live : LiveState) : List RevisionItem :=
  (live.filterMap (fun p =>
    match idx.lookup p.1 with
    | none => some ⟨p.1, .added, p.2⟩
    | some it => if it.payload == p.2 then none else some ⟨p.1, .changed, p.2⟩))
  ++ (idx.filterMap (fun p =>
    if (live.lookup p.1).isSome then none else some ⟨p.1, .removed, ""⟩))

/-- Modelled from the spec: Head::getDiff (spec 4.4) — returns the synthetic
items as an unattached Revision, never inserted into the tree. -/
def Head.getDiff (h : Head) (live : LiveState) : Revision :=
  .mk "" "" (diffItems h.index live) []

/-- Modelled from the spec: Head::checkout (spec 4.4) — applies every item of
the index onto the live document, overwriting uncommitted edits. -/
def Head.checkoutLive (h : Head) (live : LiveState) : LiveState :=
  h.index.foldl (fun lv p => applyItemLive lv p.2) live

/-- Modelled from the spec: Head::cherryPick (spec 4.4) — applies only the
indexed items whose target id is among the given ids onto the live document,
without altering the heading revision. -/
def Head.cherryPickLive (h : Head) (ids : List String) (live : LiveState) :
    LiveState :=
  h.index.foldl
    (fun lv p => if p.1 ∈ ids then applyItemLive lv p.2 else lv) live

/-- Modelled from the spec: Head::cherryPickAll (spec 4.4) — applies the full
current item set. -/
def Head.cherryPickAllLive (h : Head) (live : LiveState) : LiveState :=
  h.index.foldl (fun lv p => applyItemLive lv p.2) live

/-- Modelled from the spec: Head::resetChanges (spec 4.4) — restores only the
named live entities back to their indexed values, leaving other uncommitted
edits untouched; an entity absent from the index is removed from the live
document. -/
def Head.resetChangesLive (h : Head) (its : List RevisionItem)
    (live : LiveState) : LiveState :=
  its.foldl
    (fun lv it =>
      match h.index.lookup it.targetId with
      | some idxIt => applyItemLive lv idxIt
      | none => eraseEntry lv it.targetId) live

/-- Modelled from the spec: Head::mergeStateWith (spec 4.4) — applies another
revision items onto the live document without touching the index. -/
def Head.mergeStateWithLive (r : Revision) (live : LiveState) : LiveState :=
  r.items.foldl applyItemLive live

/-- Modelled from the spec: Head teardown during VersionControl::reset. -/
def Head.reset (_h : Head) : Head :=
  { headingRevision := emptyRevision, index := [], indexValid := false }

/-! ### Stashes repository and pack -/

/-- Modelled from the spec: StashesRepository (spec 4.5) — a named side-list
of stash revisions plus a single anonymous quick slot that holds at most one
revision. -/
structure StashesRepository where
  userStashes : List Revision
  quickStash : Option Revision

/-- Modelled from the spec: StashesRepository::hasQuickStash. The spec pins
the VersionControl-level behaviour (spec 4.6 and the testable property that
hasQuickStash reports true right after quickStashAll); VersionControl.cpp
line 266 negates this repository-level predicate, so here it reports that
the quick slot is unoccupied. -/
def StashesRepository.hasQuickStash (r : StashesRepository) : Bool :=
  r.quickStash.isNone

/-- Modelled from the spec: StashesRepository::getQuickStash (spec 4.5);
the empty sentinel stands for the unoccupied slot. -/
def StashesRepository.getQuickStash (r : StashesRepository) : Revision :=
  r.quickStash.getD emptyRevision

/-- Modelled from the spec: StashesRepository::storeQuickStash (spec 4.5) —
a second store while the slot is occupied is rejected. -/
def StashesRepository.storeQuickStash (r : StashesRepository)
    (rev : Revision) : StashesRepository :=
  if r.quickStash.isNone then { r with quickStash := some rev } else r

/-- Modelled from the spec: StashesRepository::resetQuickStash (spec 4.5). -/
def StashesRepository.resetQuickStash (r : StashesRepository) :
    StashesRepository :=
  { r with quickStash := none }

/-- Modelled from the spec: StashesRepository::addStash (spec 4.5). -/
def StashesRepository.addStash (r : StashesRepository) (rev : Revision) :
    StashesRepository :=
  { r with userStashes := r.userStashes ++ [rev] }

/-- Modelled from the spec: StashesRepository::removeStash (spec 4.5) —
removes the given stash revision from the named side-list. -/
def StashesRepository.removeStash (r : StashesRepository) (rev : Revision) :
    StashesRepository :=
  { r with userStashes :=
      r.userStashes.filter (fun s => !(s.uuid == rev.uuid)) }

/-- Modelled from the spec: StashesRepository::getUserStashWithName
(spec 4.5, 7) — a stash is filed under the commit message given to stash();
a not-found lookup is signaled by the empty sentinel, never by null. -/
def StashesRepository.getUserStashWithName (r : StashesRepository)
    (name : String) : Revision :=
  (r.userStashes.find? (fun s => s.message == name)).getD emptyRevision

def StashesRepository.reset (_r : StashesRepository) : StashesRepository :=
  { userStashes := [], quickStash := none }

/-- Modelled from the spec: Pack (spec 4.1) — a content-addressed payload
store. Persistence (flush) is outside the in-memory model; flush keeps the
in-memory entries as stated in spec 4.1. -/
structure Pack where
  entries : List (Nat × String)

def Pack.store (p : Pack) (payload : String) : Pack :=
  let h := stringHash payload
  if (p.entries.lookup h).isSome then p
  else { entries := p.entries ++ [(h, payload)] }

def Pack.flush (p : Pack) : Pack := p

def Pack.reset (_p : Pack) : Pack := { entries := [] }

/-- Modelled from the spec: Revision::flush (spec 4.3) — pushes the pending
item payloads of one revision into the pack; idempotent by content
addressing. -/
def Revision.flushInto (r : Revision) (p : Pack) : Pack :=
  r.items.foldl (fun acc it => acc.store it.payload) p

/-! ### The VersionControl orchestrator (embedded from VersionControl.cpp) -/

/-- The observable state of one VersionControl instance. The notifications
field logs, for every sendChangeMessage call, the uuid of the heading
revision at the moment of emission, so that ordering of notifications
against head movements is observable. The nextId counter supplies fresh
uuids for newly constructed revisions. -/
structure VersionControl where
  rootRevision : Revision
  head : Head
  stashes : StashesRepository
  pack : Pack
  live : LiveState
  notifications : List String
  nextId : Nat

def VersionControl.sendChangeMessage (s : VersionControl) : VersionControl :=
  { s with notifications :=
      s.notifications ++ [s.head.headingRevision.uuid] }

def freshUuid (s : VersionControl) : String := "rev-" ++ toString s.nextId

/-- Embeds VersionControl::moveHead (VersionControl.cpp lines 75-82): a
no-op for an empty revision; otherwise moves the head and emits one change
notification. The source function returns void. -/
def VersionControl.moveHead (s : VersionControl) (r : Revision) :
    VersionControl :=
  if r.isEmpty then s
  else
    VersionControl.sendChangeMessage
      { s with head := s.head.moveTo s.rootRevision r }

/-- Embeds VersionControl::checkout (VersionControl.cpp lines 84-92): a
no-op for an empty revision; otherwise moves the head, overwrites the live
entity state with the indexed state, and emits one change notification. The
source function returns void. -/
def VersionControl.checkout (s : VersionControl) (r : Revision) :
    VersionControl :=
  if r.isEmpty then s
  else
    let h := s.head.moveTo s.rootRevision r
    VersionControl.sendChangeMessage
      { s with head := h, live := h.checkoutLive s.live }

/-- Embeds VersionControl::cherryPick (VersionControl.cpp lines 94-104): a
no-op for an empty revision; otherwise saves the heading revision, moves to
the source revision, cherry-picks the given ids onto the live document,
moves back to the saved heading revision, and only then emits the single
change notification. -/
def VersionControl.cherryPick (s : VersionControl) (r : Revision)
    (ids : List String) : VersionControl :=
  if r.isEmpty then s
  else
    let saved := s.head.headingRevision
    let h1 := s.head.moveTo s.rootRevision r
    let lv := h1.cherryPickLive ids s.live
    let h2 := h1.moveTo s.rootRevision saved
    VersionControl.sendChangeMessage { s with head := h2, live := lv }

/-- Embeds VersionControl::appendSubtree (VersionControl.cpp lines 106-124):
for an empty target id the whole body is commented out, so the call silently
does nothing — no state change, no notification, and the void return leaves
no channel for a distinct unsupported-operation outcome. For a non-empty id
the subtree is attached under the revision found by uuid, when that lookup
is non-empty, followed by one change notification. -/
def VersionControl.appendSubtree (s : VersionControl) (subtree : Revision)
    (appendRevisionId : String) : VersionControl :=
  if appendRevisionId == "" then s
  else
    let headRevision := getRevisionById s.rootRevision appendRevisionId
    if headRevision.isEmpty then s
    else
      VersionControl.sendChangeMessage
        { s with rootRevision :=
            addChildAt s.rootRevision appendRevisionId subtree }

/-- The selection loop shared by commit and stash (VersionControl.cpp lines
184-192 and 220-225): collect the diff items at the selected indices, in
selection order; none as soon as one index is out of range. -/
def collectSelected (items : List RevisionItem) : List Nat →
    Option (List RevisionItem)
  | [] => some []
  | i :: rest =>
      match items[i]? with
      | none => none
      | some it =>
          match collectSelected items rest with
          | some l => some (it :: l)
          | none => none

/-- Embeds VersionControl::resetChanges (VersionControl.cpp lines 142-161):
false on an empty selection or an out-of-range index; otherwise restores the
selected live entities to their indexed values. -/
def VersionControl.resetChanges (s : VersionControl) (sel : List Nat) :
    Bool × VersionControl :=
  if sel.isEmpty then (false, s)
  else
    let allChanges := s.head.getDiff s.live
    match collectSelected allChanges.items sel with
    | none => (false, s)
    | some toReset =>
        (true, { s with live := s.head.resetChangesLive toReset s.live })

/-- Embeds VersionControl::resetAllChanges (VersionControl.cpp lines
163-175): restores every diff item to its indexed value and returns true. -/
def VersionControl.resetAllChanges (s : VersionControl) :
    Bool × VersionControl :=
  let allChanges := s.head.getDiff s.live
  (true, { s with live := s.head.resetChangesLive allChanges.items s.live })

/-- Embeds VersionControl::commit (VersionControl.cpp lines 177-205): false
with no mutation on an empty selection or an out-of-range index; otherwise
builds a new revision from the selected diff items, attaches it under the
heading revision, moves the head onto it, flushes the new revision into the
pack, and emits one change notification. -/
def VersionControl.commit (s : VersionControl) (sel : List Nat)
    (message : String) : Bool × VersionControl :=
  if sel.isEmpty then (false, s)
  else
    let allChanges := s.head.getDiff s.live
    match collectSelected allChanges.items sel with
    | none => (false, s)
    | some picked =>
        let newRevision : Revision := .mk (freshUuid s) message picked []
        let headingId := s.head.headingRevision.uuid
        let root := addChildAt s.rootRevision headingId newRevision
        let h := s.head.moveTo root newRevision
        let p := (newRevision.flushInto s.pack).flush
        (true, VersionControl.sendChangeMessage
          { s with rootRevision := root, head := h, pack := p,
                   nextId := s.nextId + 1 })

/-- Embeds VersionControl::stash (VersionControl.cpp lines 212-236): false
on an empty selection or an out-of-range index; otherwise files a new
revision holding the selected diff items in the stashes repository,
optionally resets those changes, and emits one change notification. -/
def VersionControl.stash (s : VersionControl) (sel : List Nat)
    (message : String) (shouldKeepChanges : Bool) : Bool × VersionControl :=
  if sel.isEmpty then (false, s)
  else
    let allChanges := s.head.getDiff s.live
    match collectSelected allChanges.items sel with
    | none => (false, s)
    | some picked =>
        let newRevision : Revision := .mk (freshUuid s) message picked []
        let s1 := { s with stashes := s.stashes.addStash newRevision,
                           nextId := s.nextId + 1 }
        let s2 :=
          if shouldKeepChanges then s1 else (s1.resetChanges sel).2
        (true, VersionControl.sendChangeMessage s2)

/-- Embeds VersionControl::applyStash for a revision (VersionControl.cpp
lines 238-257): false for the empty sentinel; otherwise saves the heading
revision, moves to the stash, cherry-picks everything onto the live
document, moves back, optionally removes the stash, and emits one change
notification. -/
def VersionControl.applyStash (s : VersionControl) (stashRev : Revision)
    (shouldKeepStash : Bool) : Bool × VersionControl :=
  if stashRev.isEmpty then (false, s)
  else
    let saved := s.head.headingRevision
    let h1 := s.head.moveTo s.rootRevision stashRev
    let lv := h1.cherryPickAllLive s.live
    let h2 := h1.moveTo s.rootRevision saved
    let st := if shouldKeepStash then s.stashes
              else s.stashes.removeStash stashRev
    (true, VersionControl.sendChangeMessage
      { s with head := h2, live := lv, stashes := st })

/-- Embeds VersionControl::applyStash for a name (VersionControl.cpp lines
259-262): delegates to the revision overload through
getUserStashWithName. -/
def VersionControl.applyStashByName (s : VersionControl) (stashId : String)
    (shouldKeepStash : Bool) : Bool × VersionControl :=
  s.applyStash (s.stashes.getUserStashWithName stashId) shouldKeepStash

/-- Embeds VersionControl::hasQuickStash (VersionControl.cpp lines 264-267):
the negation of the repository-level predicate, hence true exactly when the
quick slot is occupied. -/
def VersionControl.hasQuickStash (s : VersionControl) : Bool :=
  !(s.stashes.hasQuickStash)

/-- Embeds VersionControl::quickStashAll (VersionControl.cpp lines 269-280):
false when a quick stash already exists; otherwise snapshots the full diff
into the quick slot, resets all live changes, and emits one change
notification. -/
def VersionControl.quickStashAll (s : VersionControl) :
    Bool × VersionControl :=
  if s.hasQuickStash then (false, s)
  else
    let allChanges := s.head.getDiff s.live
    let s1 := { s with stashes := s.stashes.storeQuickStash allChanges }
    let s2 := (s1.resetAllChanges).2
    (true, VersionControl.sendChangeMessage s2)

/-- Embeds VersionControl::applyQuickStash (VersionControl.cpp lines
282-294): false when no quick stash exists; otherwise merges the quick
stash into the live document through a temporary copy of the head (the real
head is never reassigned), clears the quick slot, and emits one change
notification. -/
def VersionControl.applyQuickStash (s : VersionControl) :
    Bool × VersionControl :=
  if !(s.hasQuickStash) then (false, s)
  else
    let tempHead := s.head
    let lv1 := Head.mergeStateWithLive (s.stashes.getQuickStash) s.live
    let lv2 := tempHead.cherryPickAllLive lv1
    (true, VersionControl.sendChangeMessage
      { s with live := lv2, stashes := s.stashes.resetQuickStash })

/-- Embeds VersionControl::calculateHash (VersionControl.cpp lines 64-69)
at the state level: the whole-tree content hash of the root revision. -/
def VersionControl.calculateHash (s : VersionControl) : String :=
  vcsTreeHash s.rootRevision

/-- Embeds VersionControl::reset (VersionControl.cpp lines 358-364). -/
def VersionControl.reset (s : VersionControl) : VersionControl :=
  { s with rootRevision := .mk s.rootRevision.uuid "" [] [],
           head := s.head.reset,
           stashes := s.stashes.reset,
           pack := s.pack.reset }

/-! ### Serialization -/

/-- The persisted structure produced by VersionControl::serialize (spec 6):
the stored heading revision id, the revision tree, the stash list, the pack
and the serialized head index blob. -/
structure SerializedVC where
  headRevisionId : String
  root : Revision
  stashes : StashesRepository
  pack : Pack
  headIndex : Index

/-- Embeds VersionControl::serialize (VersionControl.cpp lines 301-313). -/
def VersionControl.serialize (s : VersionControl) : SerializedVC :=
  { headRevisionId := s.head.headingRevision.uuid,
    root := s.rootRevision,
    stashes := s.stashes,
    pack := s.pack,
    headIndex := s.head.index }

/-- Embeds VersionControl::deserialize (VersionControl.cpp lines 315-356):
resets the state, restores the tree, the stashes, the pack and the stored
head index, then looks up the stored heading id in the restored tree and,
when found non-empty, points (never moves) the head to it — so the index
validity flag is left false after load. No change notification is
emitted. -/
def VersionControl.deserialize (s : VersionControl) (t : SerializedVC) :
    VersionControl :=
  let s0 := s.reset
  let s1 := { s0 with rootRevision := t.root,
                      stashes := t.stashes,
                      pack := t.pack,
                      head := { s0.head with index := t.headIndex } }
  let headRevision := getRevisionById s1.rootRevision t.headRevisionId
  if headRevision.isEmpty then s1
  else { s1 with head := s1.head.pointTo headRevision }

/-! ### Induction principle for the nested revision tree -/

/-- Member-wise induction over revision trees: to prove a property of every
revision it is enough to prove it for a node assuming it for every child. -/
theorem Revision.inductionOn (P : Revision → Prop)
    (step : ∀ u m its cs, (∀ c ∈ cs, P c) → P (.mk u m its cs)) :
    ∀ r, P r
  | .mk u m its cs =>
      step u m its cs (fun c _hc => Revision.inductionOn P step c)
termination_by r => sizeOf r
decreasing_by
  have h1 : sizeOf c < sizeOf cs := List.sizeOf_lt_sizeOf_of_mem _hc
  simp only [Revision.mk.sizeOf_spec]
  omega

/-! ### Lemmas about depth-first search -/

theorem searchChildrenById_eq_empty (id : String) :
    ∀ cs : List Revision,
      (∀ c ∈ cs, id ∉ allUuids c → getRevisionById c id = emptyRevision) →
      id ∉ allUuidsList cs → searchChildrenById cs id = emptyRevision
  | [], _, _ => rfl
  | c :: rest, hcs, hmem => by
      have hsplit : id ∉ allUuids c ∧ id ∉ allUuidsList rest := by
        constructor <;> intro hx <;> exact hmem (by
          simp [allUuidsList, List.mem_append]
          first
            | exact Or.inl hx
            | exact Or.inr hx)
      have hc : getRevisionById c id = emptyRevision :=
        hcs c (by simp) hsplit.1
      simp only [searchChildrenById, hc]
      have : (emptyRevision).isEmpty = true := rfl
      simp only [this, if_pos]
      exact searchChildrenById_eq_empty id rest
        (fun c hmemc => hcs c (by simp [hmemc])) hsplit.2

/-- When the searched id occurs nowhere in the tree reachable from the given
revision, the depth-first search returns exactly the empty sentinel. -/
theorem getRevisionById_eq_empty_of_not_mem (r : Revision) :
    ∀ id : String, id ∉ allUuids r → getRevisionById r id = emptyRevision := by
  induction r using Revision.inductionOn with
  | step u m its cs ih =>
      intro id hmem
      have hu : (u == id) = false := by
        simp only [allUuids, List.mem_cons, not_or] at hmem
        simp [beq_eq_false_iff_ne]
        exact fun h => hmem.1 h.symm
      have hcs : id ∉ allUuidsList cs := by
        simp only [allUuids, List.mem_cons, not_or] at hmem
        exact hmem.2
      simp only [getRevisionById, hu, Bool.false_eq_true, if_neg,
        Bool.not_eq_true]
      exact searchChildrenById_eq_empty id cs
        (fun c hc => ih c hc id) hcs

theorem searchChildrenById_uuid (id : String) :
    ∀ cs : List Revision,
      (∀ c ∈ cs, getRevisionById c id = emptyRevision ∨
        (getRevisionById c id).uuid = id) →
      searchChildrenById cs id = emptyRevision ∨
        (searchChildrenById cs id).uuid = id
  | [], _ => Or.inl rfl
  | c :: rest, hcs => by
      simp only [searchChildrenById]
      by_cases he : (getRevisionById c id).isEmpty = true
      · simp only [he, if_pos]
        exact searchChildrenById_uuid id rest
          (fun x hx => hcs x (by simp [hx]))
      · simp only [Bool.not_eq_true] at he
        simp only [he, Bool.false_eq_true, if_neg, Bool.not_eq_true]
        rcases hcs c (by simp) with h | h
        · rw [h] at he
          exact absurd he (by decide)
        · exact Or.inr h

/-- The depth-first search either fails with the sentinel or returns a
revision carrying exactly the searched uuid. -/
theorem getRevisionById_uuid (r : Revision) (id : String) :
    getRevisionById r id = emptyRevision ∨ (getRevisionById r id).uuid = id := by
  induction r using Revision.inductionOn with
  | step u m its cs ih =>
      by_cases hu : (u == id) = true
      · right
        have : u = id := by simpa [beq_iff_eq] using hu
        simp [getRevisionById, hu, Revision.uuid, this]
      · simp only [Bool.not_eq_true] at hu
        simp only [getRevisionById, hu, Bool.false_eq_true, if_neg,
          Bool.not_eq_true]
        exact searchChildrenById_uuid id cs (fun c hc => ih c hc)

/-! ### Concrete fixtures used by the witnesses -/

def revFirst : Revision := .mk "r1" "first" [⟨"e1", .added, "v0"⟩] []

def rootFix : Revision := .mk "root" "init" [] [revFirst]

def headFix : Head :=
  { headingRevision := rootFix, index := [], indexValid := true }

def vcFix : VersionControl :=
  { rootRevision := rootFix,
    head := headFix,
    stashes := { userStashes := [.mk "st1" "named" [] []], quickStash := none },
    pack := { entries := [] },
    live := [("e1", "v1")],
    notifications := [],
    nextId := 0 }

def vcFixQ : VersionControl :=
  { vcFix with stashes :=
      { userStashes := [], quickStash := some (.mk "q" "" [] []) } }

/-! ### Claim theorems -/

/-- C1: if a quick stash already exists, quickStashAll returns false and
leaves the state — hence the occupied quick slot — unchanged; moreover after
any quickStashAll call the quick slot is occupied, so a second call without
resolving the first returns false, leaves the state unchanged, and
hasQuickStash still reports true. -/
theorem quickStashAll_second_call_fails (s : VersionControl) :
    (s.hasQuickStash = true → s.quickStashAll = (false, s)) ∧
    (s.quickStashAll).2.hasQuickStash = true ∧
    (s.quickStashAll).2.quickStashAll = (false, (s.quickStashAll).2) := by
  rcases hq : s.stashes.quickStash with _ | q
  · have h0 : s.hasQuickStash = false := by
      simp [VersionControl.hasQuickStash, StashesRepository.hasQuickStash, hq]
    refine ⟨fun h => absurd h (by simp [h0]), ?_, ?_⟩
    · simp [VersionControl.quickStashAll, h0, VersionControl.hasQuickStash,
        StashesRepository.hasQuickStash, StashesRepository.storeQuickStash,
        VersionControl.resetAllChanges, VersionControl.sendChangeMessage, hq]
    · simp [VersionControl.quickStashAll, h0, VersionControl.hasQuickStash,
        StashesRepository.hasQuickStash, StashesRepository.storeQuickStash,
        VersionControl.resetAllChanges, VersionControl.sendChangeMessage, hq]
  · have h1 : s.hasQuickStash = true := by
      simp [VersionControl.hasQuickStash, StashesRepository.hasQuickStash, hq]
    have hfail : s.quickStashAll = (false, s) := by
      simp [VersionControl.quickStashAll, h1]
    exact ⟨fun _ => hfail, by rw [hfail]; exact h1, by rw [hfail]; exact hfail⟩

/-- Witness for C1 at a state whose quick slot is occupied. -/
theorem quickStashAll_second_call_fails_witness :
    vcFixQ.hasQuickStash = true ∧ vcFixQ.quickStashAll = (false, vcFixQ) :=
  ⟨rfl, (quickStashAll_second_call_fails vcFixQ).1 rfl⟩

/-- C6: the source of appendSubtree for an empty target id is entirely
commented out (VersionControl.cpp lines 108-114), so the call silently does
nothing: the state is returned unchanged, no notification is emitted, and
the void return type offers no distinct unsupported-operation outcome —
contradicting the stated requirement to fail explicitly. -/
theorem appendSubtree_emptyId_silently_does_nothing
    (s : VersionControl) (subtree : Revision) :
    s.appendSubtree subtree "" = s := by
  simp [VersionControl.appendSubtree]

/-- C5: applyQuickStash returns false leaving the state unchanged when no
quick stash exists; when one exists it returns true, never touches the real
head (so the heading revision is untouched), merges the quick-stash state
into the live document through the temporary head copy, clears the quick
slot, and emits one change notification. -/
theorem applyQuickStash_spec (s : VersionControl) :
    (s.hasQuickStash = false → s.applyQuickStash = (false, s)) ∧
    (s.hasQuickStash = true →
      (s.applyQuickStash).1 = true ∧
      (s.applyQuickStash).2.head = s.head ∧
      (s.applyQuickStash).2.stashes.quickStash = none ∧
      (s.applyQuickStash).2.live =
        Head.cherryPickAllLive s.head
          (Head.mergeStateWithLive (s.stashes.getQuickStash) s.live) ∧
      (s.applyQuickStash).2.notifications =
        s.notifications ++ [s.head.headingRevision.uuid]) := by
  constructor
  · intro h0
    simp [VersionControl.applyQuickStash, h0]
  · intro h1
    simp [VersionControl.applyQuickStash, h1,
      VersionControl.sendChangeMessage, StashesRepository.resetQuickStash]

/-- Witness for C5: the failure case at the quick-slot-free fixture and the
success case at the occupied fixture. -/
theorem applyQuickStash_spec_witness :
    vcFix.applyQuickStash = (false, vcFix) ∧
    (vcFixQ.applyQuickStash).1 = true ∧
    (vcFixQ.applyQuickStash).2.head = vcFixQ.head ∧
    (vcFixQ.applyQuickStash).2.stashes.quickStash = none :=
  ⟨(applyQuickStash_spec vcFix).1 rfl,
   ((applyQuickStash_spec vcFixQ).2 rfl).1,
   ((applyQuickStash_spec vcFixQ).2 rfl).2.1,
   ((applyQuickStash_spec vcFixQ).2 rfl).2.2.1⟩

/-- C4: for every non-empty revision and every id set, cherryPick restores
the heading revision to its prior value and emits exactly one change
notification, logged only after the head has been restored — the recorded
heading uuid at emission time is the prior heading uuid. -/
theorem cherryPick_restores_head (s : VersionControl) (r : Revision)
    (ids : List String) (h : r.isEmpty = false) :
    (s.cherryPick r ids).head.headingRevision = s.head.headingRevision ∧
    (s.cherryPick r ids).notifications =
      s.notifications ++ [s.head.headingRevision.uuid] := by
  simp [VersionControl.cherryPick, h, Head.moveTo,
    VersionControl.sendChangeMessage]

/-- Witness for C4 at a non-empty revision of the fixture tree. -/
theorem cherryPick_restores_head_witness :
    (vcFix.cherryPick revFirst ["e1"]).head.headingRevision =
      vcFix.head.headingRevision ∧
    (vcFix.cherryPick revFirst ["e1"]).notifications =
      vcFix.notifications ++ [vcFix.head.headingRevision.uuid] :=
  cherryPick_restores_head vcFix revFirst ["e1"] (by decide)

/-- C10: applying a stash by a name matching no stored stash returns false
and performs no mutation at all — the state, hence the heading revision, the
stash list and the notification log, is returned unchanged. -/
theorem applyStash_unknown_name_fails (s : VersionControl) (name : String)
    (keep : Bool)
    (h : ∀ r ∈ s.stashes.userStashes, ¬ r.message = name) :
    s.applyStashByName name keep = (false, s) := by
  have hfind : s.stashes.getUserStashWithName name = emptyRevision := by
    have : s.stashes.userStashes.find? (fun r => r.message == name) = none := by
      apply List.find?_eq_none.mpr
      intro x hx
      simpa using h x hx
    simp [StashesRepository.getUserStashWithName, this]
  simp [VersionControl.applyStashByName, hfind, VersionControl.applyStash]
  rfl

/-- Witness for C10: the fixture stores one stash named differently from the
searched name. -/
theorem applyStash_unknown_name_fails_witness :
    (∀ r ∈ vcFix.stashes.userStashes, ¬ r.message = "missing") ∧
    vcFix.applyStashByName "missing" true = (false, vcFix) :=
  ⟨by decide, applyStash_unknown_name_fails vcFix "missing" true (by decide)⟩

/-- C8: for an empty revision argument, moveHead and checkout return the
state unchanged — no head movement, no live-state change, no notification;
for a non-empty revision both move the head onto the revision and emit one
notification, and checkout additionally overwrites the live entity state
with the state indexed at the revision. -/
theorem moveHead_checkout_empty_guard (s : VersionControl) (r : Revision) :
    (r.isEmpty = true → s.moveHead r = s ∧ s.checkout r = s) ∧
    (r.isEmpty = false →
      (s.moveHead r).head.headingRevision = r ∧
      (s.moveHead r).live = s.live ∧
      (s.moveHead r).notifications = s.notifications ++ [r.uuid] ∧
      (s.checkout r).head.headingRevision = r ∧
      (s.checkout r).live =
        Head.checkoutLive (s.head.moveTo s.rootRevision r) s.live) := by
  constructor
  · intro h
    constructor <;> simp [VersionControl.moveHead, VersionControl.checkout, h]
  · intro h
    simp [VersionControl.moveHead, VersionControl.checkout, h, Head.moveTo,
      VersionControl.sendChangeMessage]

/-- Witness for C8: the empty sentinel leaves the fixture untouched; the
non-empty fixture revision moves the head. -/
theorem moveHead_checkout_empty_guard_witness :
    (vcFix.moveHead emptyRevision = vcFix ∧
      vcFix.checkout emptyRevision = vcFix) ∧
    (vcFix.moveHead revFirst).head.headingRevision = revFirst :=
  ⟨(moveHead_checkout_empty_guard vcFix emptyRevision).1 rfl,
   ((moveHead_checkout_empty_guard vcFix revFirst).2 (by decide)).1⟩

/-- C9: for every id matching no revision reachable from the given root, the
depth-first search returns the empty sentinel — a total, never-null result —
whose isEmpty reports true. -/
theorem getRevisionById_unknown_returns_sentinel (root : Revision)
    (id : String) (h : id ∉ allUuids root) :
    getRevisionById root id = emptyRevision ∧
    (getRevisionById root id).isEmpty = true := by
  have he := getRevisionById_eq_empty_of_not_mem root id h
  exact ⟨he, by rw [he]; rfl⟩

/-- Witness for C9 at the fixture tree and an unknown id. -/
theorem getRevisionById_unknown_returns_sentinel_witness :
    "unknown" ∉ allUuids rootFix ∧
    getRevisionById rootFix "unknown" = emptyRevision :=
  ⟨by decide,
   (getRevisionById_unknown_returns_sentinel rootFix "unknown" (by decide)).1⟩

theorem collectSelected_oob (items : List RevisionItem) :
    ∀ sel : List Nat, (∃ i ∈ sel, items.length ≤ i) →
      collectSelected items sel = none
  | [], h => by simp at h
  | i :: rest, h => by
      by_cases hi : items.length ≤ i
      · simp [collectSelected, List.getElem?_eq_none hi]
      · have hr : ∃ j ∈ rest, items.length ≤ j := by
          rcases h with ⟨j, hj, hlen⟩
          rcases List.mem_cons.mp hj with rfl | hjr
          · exact absurd hlen hi
          · exact ⟨j, hjr, hlen⟩
        have hrest := collectSelected_oob items rest hr
        cases hx : items[i]? <;> simp [collectSelected, hx, hrest]

/-- C2: commit returns false and leaves the whole state — the revision tree,
the head, and the pack — unchanged whenever the selection is empty or any
selected index is out of range of the current diff item list. -/
theorem commit_fails_on_bad_selection (s : VersionControl) (sel : List Nat)
    (msg : String)
    (h : sel = [] ∨ ∃ i ∈ sel, (s.head.getDiff s.live).items.length ≤ i) :
    s.commit sel msg = (false, s) := by
  rcases h with rfl | hoob
  · simp [VersionControl.commit]
  · rcases sel with _ | ⟨i, rest⟩
    · simp [VersionControl.commit]
    · have hnone := collectSelected_oob (s.head.getDiff s.live).items
        (i :: rest) hoob
      simp [VersionControl.commit, hnone]

/-- Witness for C2: an out-of-range index on the fixture diff (which holds a
single item). -/
theorem commit_fails_on_bad_selection_witness :
    ([5] = [] ∨ ∃ i ∈ [5], (vcFix.head.getDiff vcFix.live).items.length ≤ i) ∧
    vcFix.commit [5] "msg" = (false, vcFix) :=
  ⟨by decide, commit_fails_on_bad_selection vcFix [5] "msg" (by decide)⟩

/-- C7: deserializing the tree produced by serialize reproduces a state with
an identical whole-tree content hash and an identical heading-revision uuid,
and the head is pointed rather than moved to it: the index validity flag is
false after the load. The hypothesis states that the stored heading id is
found non-empty in the restored tree, which is the guard of the source
(VersionControl.cpp line 345). -/
theorem serialize_deserialize_roundtrip (s0 s : VersionControl)
    (h : (getRevisionById s.rootRevision
      s.head.headingRevision.uuid).isEmpty = false) :
    (s0.deserialize s.serialize).calculateHash = s.calculateHash ∧
    (s0.deserialize s.serialize).head.headingRevision.uuid =
      s.head.headingRevision.uuid ∧
    (s0.deserialize s.serialize).head.indexValid = false := by
  have huuid : (getRevisionById s.rootRevision
      s.head.headingRevision.uuid).uuid = s.head.headingRevision.uuid := by
    rcases getRevisionById_uuid s.rootRevision s.head.headingRevision.uuid
      with he | hu
    · rw [he] at h
      exact absurd h (by decide)
    · exact hu
  simp [VersionControl.deserialize, VersionControl.serialize,
    VersionControl.reset, Head.reset, StashesRepository.reset, Pack.reset,
    Head.pointTo, VersionControl.calculateHash, h, huuid]

/-- Witness for C7 at the fixture state, whose heading revision is the root
of its own tree. -/
theorem serialize_deserialize_roundtrip_witness :
    (getRevisionById vcFix.rootRevision
      vcFix.head.headingRevision.uuid).isEmpty = false ∧
    (vcFix.deserialize vcFix.serialize).head.headingRevision.uuid =
      vcFix.head.headingRevision.uuid ∧
    (vcFix.deserialize vcFix.serialize).head.indexValid = false :=
  ⟨by decide,
   (serialize_deserialize_roundtrip vcFix vcFix (by decide)).2.1,
   (serialize_deserialize_roundtrip vcFix vcFix (by decide)).2.2⟩

/-! ### Child-order invariance of the whole-tree hash -/

/-- Two revision trees that differ only in the insertion order of the
children of one revision: either the children of the root are permuted, or
the reordering happens inside one child subtree. -/
inductive PermStep : Revision → Revision → Prop where
  | here (u m : String) (its : List RevisionItem) (cs cs' : List Revision)
      (h : cs.Perm cs') :
      PermStep (.mk u m its cs) (.mk u m its cs')
  | inside (u m : String) (its : List RevisionItem)
      (pre post : List Revision) (c c' : Revision) (h : PermStep c c') :
      PermStep (.mk u m its (pre ++ c :: post))
        (.mk u m its (pre ++ c' :: post))

theorem descendantHashes_eq_flatMap :
    ∀ cs : List Revision,
      descendantHashes cs =
        cs.flatMap (fun c => c.calculateHash :: descendantHashes c.children)
  | [] => rfl
  | .mk u m its cs0 :: rest => by
      simp only [descendantHashes, List.flatMap_cons, List.cons_append,
        Revision.children, descendantHashes_eq_flatMap rest]

theorem childrenHashes_eq_flatMap :
    ∀ cs : List Revision, childrenHashes cs = cs.flatMap recursiveGetHashes
  | [] => rfl
  | c :: rest => by
      simp only [childrenHashes, List.flatMap_cons]
      rw [childrenHashes_eq_flatMap rest]

theorem insertionSort_natLE_congr {l l' : List Nat} (p : l.Perm l') :
    List.insertionSort natLE l = List.insertionSort natLE l' :=
  List.eq_of_perm_of_sorted
    ((List.perm_insertionSort _ _).trans
      (p.trans (List.perm_insertionSort _ _).symm))
    (List.sorted_insertionSort _ _) (List.sorted_insertionSort _ _)

theorem insertionSort_strLE_congr {l l' : List String} (p : l.Perm l') :
    List.insertionSort strLE l = List.insertionSort strLE l' :=
  List.eq_of_perm_of_sorted
    ((List.perm_insertionSort _ _).trans
      (p.trans (List.perm_insertionSort _ _).symm))
    (List.sorted_insertionSort _ _) (List.sorted_insertionSort _ _)

/-- One child-order permutation step changes neither the own content hash of
the affected tree (the descendant hashes enter it sorted) nor, up to
permutation, the list of hashes of its strict descendants. -/
theorem permStep_calculateHash : ∀ {r r' : Revision}, PermStep r r' →
    r.calculateHash = r'.calculateHash ∧
    (descendantHashes r.children).Perm (descendantHashes r'.children) := by
  intro r r' h
  induction h with
  | here u m its cs cs' hp =>
      have hd : (descendantHashes cs).Perm (descendantHashes cs') := by
        rw [descendantHashes_eq_flatMap, descendantHashes_eq_flatMap]
        exact hp.flatMap_right _
      refine ⟨?_, by simpa [Revision.children] using hd⟩
      simp only [Revision.calculateHash]
      rw [insertionSort_natLE_congr hd]
  | inside u m its pre post c c' hc ih =>
      have hstep : ((c.calculateHash :: descendantHashes c.children)).Perm
          (c'.calculateHash :: descendantHashes c'.children) := by
        rw [ih.1]
        exact ih.2.cons _
      have hd : (descendantHashes (pre ++ c :: post)).Perm
          (descendantHashes (pre ++ c' :: post)) := by
        rw [descendantHashes_eq_flatMap, descendantHashes_eq_flatMap]
        simp only [List.flatMap_append, List.flatMap_cons]
        exact ((hstep.append_right _).append_left _)
      refine ⟨?_, by simpa [Revision.children] using hd⟩
      simp only [Revision.calculateHash]
      rw [insertionSort_natLE_congr hd]

/-- One child-order permutation step permutes the collected list of
per-revision hashes of the whole tree. -/
theorem permStep_recursiveGetHashes : ∀ {r r' : Revision}, PermStep r r' →
    (recursiveGetHashes r).Perm (recursiveGetHashes r') := by
  intro r r' h
  induction h with
  | here u m its cs cs' hp =>
      have hcs : (childrenHashes cs).Perm (childrenHashes cs') := by
        rw [childrenHashes_eq_flatMap, childrenHashes_eq_flatMap]
        exact hp.flatMap_right _
      have hcalc :=
        (permStep_calculateHash (PermStep.here u m its cs cs' hp)).1
      simp only [recursiveGetHashes]
      exact hcs.append (by rw [hcalc])
  | inside u m its pre post c c' hc ih =>
      have hcs : (childrenHashes (pre ++ c :: post)).Perm
          (childrenHashes (pre ++ c' :: post)) := by
        rw [childrenHashes_eq_flatMap, childrenHashes_eq_flatMap]
        simp only [List.flatMap_append, List.flatMap_cons]
        exact ((ih.append_right _).append_left _)
      have hcalc :=
        (permStep_calculateHash (PermStep.inside u m its pre post c c' hc)).1
      simp only [recursiveGetHashes]
      exact hcs.append (by rw [hcalc])

/-- C3: the whole-tree content hash of VersionControl::calculateHash is
invariant under any permutation of the children of any revision of the tree:
two histories that differ only in child insertion order produce the same
hash string. -/
theorem calculateHash_child_order_invariant (t t' : Revision)
    (h : PermStep t t') : vcsTreeHash t = vcsTreeHash t' := by
  have hp := (permStep_recursiveGetHashes h).map (toString : Nat → String)
  unfold vcsTreeHash
  rw [insertionSort_strLE_congr hp]

def permExA : Revision := .mk "a" "ma" [⟨"x", .added, "1"⟩] []

def permExB : Revision := .mk "b" "mb" [⟨"y", .changed, "2"⟩] []

def permExT1 : Revision := .mk "base" "init" [] [permExA, permExB]

def permExT2 : Revision := .mk "base" "init" [] [permExB, permExA]

/-- Witness for C3: two concrete histories differing only in the insertion
order of the two children of the root hash identically. -/
theorem calculateHash_child_order_invariant_witness :
    PermStep permExT1 permExT2 ∧ vcsTreeHash permExT1 = vcsTreeHash permExT2 :=
  have hp : PermStep permExT1 permExT2 :=
    PermStep.here "base" "init" [] [permExA, permExB] [permExB, permExA]
      (List.Perm.swap permExB permExA [])
  ⟨hp, calculateHash_child_order_invariant permExT1 permExT2 hp⟩

end WStation
